import Mathlib

/-!
Verification development for the fundvis repository (entity-resolution and
graph-upsert module).

The development shallowly embeds the relational store of models.py, the
resolvers and the upsert of crud.py, and the ingestion boundary of
data_acquisition.py.  Rows carry explicit surrogate identifiers; each table
keeps its rows in insertion order together with the next identifier to be
assigned (SQLite assigns increasing rowids to never-deleted tables, and the
ORM session's autoflush makes pending rows visible to every later query of
the same call, so identifiers are modelled as assigned at insertion time).

SQLAlchemy's ilike(name) compiles to a case-insensitive SQL LIKE whose
pattern is the queried name, so the pattern wildcards of LIKE are modelled
faithfully: a percent sign covers any character sequence and an underscore
covers any single character; literal characters compare case-insensitively
(SQLite folds ASCII letters only, as does Char.toLower).
-/

/-- SQL LIKE matching on character lists, case-insensitive on ASCII letters.
The first argument is the pattern (the queried name), the second the stored
text.  Structurally recursive on the pattern. -/
def likeChars : List Char → List Char → Bool
  | [], t => t.isEmpty
  | c :: p, t =>
    if c = '%' then
      t.tails.any (fun s => likeChars p s)
    else
      match t with
      | [] => false
      | d :: t2 => (c == '_' || c.toLower == d.toLower) && likeChars p t2

/-- Does the stored name match the query under case-insensitive SQL LIKE,
with the query acting as the pattern (this is what ilike(name) compiles to). -/
def ilikeMatch (stored query : String) : Bool :=
  likeChars query.data stored.data

/-- ASCII-lower-cased character list of a string, for stating case-insensitive
name equality. -/
def lowerName (s : String) : List Char :=
  s.data.map Char.toLower

/-- True when the string contains no SQL LIKE wildcard character. -/
def noWildcard (s : String) : Bool :=
  s.data.all (fun c => !(c == '%') && !(c == '_'))

/-- Row of one of the four entity tables of models.py: a surrogate id plus the
single text column (name for Author, Funder and Institution; doi for Paper). -/
structure EntityRow where
  id : Nat
  name : String
deriving DecidableEq, Repr

/-- One entity table: rows in insertion order plus the next identifier the
store will assign. -/
structure Table where
  rows : List EntityRow
  next : Nat
deriving DecidableEq, Repr

/-- The relational store of models.py: the four entity tables, the three
pair junction tables touched by the upsert, and the three-way AuthorFunders
association (author_id, funder_id, paper_id).  The institution_funders
junction is never written by the upsert path and is omitted. -/
structure DB where
  papers : Table
  authors : Table
  funders : Table
  institutions : Table
  authorInstitutions : List (Nat × Nat)
  paperAuthors : List (Nat × Nat)
  paperFunders : List (Nat × Nat)
  authorFunders : List (Nat × Nat × Nat)
deriving DecidableEq, Repr

/-- The empty store (fresh database file; SQLite identifiers start at 1). -/
def emptyDB : DB :=
  ⟨⟨[], 1⟩, ⟨[], 1⟩, ⟨[], 1⟩, ⟨[], 1⟩, [], [], [], []⟩

/-- Pydantic schema.Funder: a single name field. -/
structure FunderSchema where
  name : String
deriving DecidableEq, Repr

/-- Pydantic schema.Institution: a single name field. -/
structure InstitutionSchema where
  name : String
deriving DecidableEq, Repr

/-- Pydantic schema.Author: a name, affiliated institutions and funders.
The name is only required to be a string; the empty string is accepted. -/
structure AuthorSchema where
  name : String
  institution : List InstitutionSchema
  funders : List FunderSchema
deriving DecidableEq, Repr

/-- Pydantic schema.Paper: a doi plus optional author and funder lists. -/
structure PaperSchema where
  doi : String
  authors : Option (List AuthorSchema)
  funders : Option (List FunderSchema)
deriving DecidableEq, Repr

/-- Look a row up in a table by a boolean predicate on its name column,
returning the first match in table order (query(...).filter(...).first()). -/
def findRow (t : Table) (namePred : String → Bool) : Option EntityRow :=
  t.rows.find? (fun r => namePred r.name)

/-- Insert a fresh row with the given name, assigning the next identifier. -/
def insertRow (t : Table) (name : String) : EntityRow × Table :=
  (⟨t.next, name⟩, ⟨t.rows ++ [⟨t.next, name⟩], t.next + 1⟩)

/-- The stand-in for the unused float threshold parameter of the three
fuzzy_match functions (source default 0.7).  The parameter is never read, so
a rational stand-in for the float is faithful. -/
def defaultThreshold : Rat := 7 / 10

/-- crud.fuzzy_match_author: case-insensitive exact-pattern lookup of an
author by name via ilike; the threshold parameter is unused. -/
def fuzzy_match_author (db : DB) (name : String) (threshold : Rat) : Option EntityRow :=
  findRow db.authors (fun s => ilikeMatch s name)

/-- crud.fuzzy_match_funder: same lookup on the funders table. -/
def fuzzy_match_funder (db : DB) (name : String) (threshold : Rat) : Option EntityRow :=
  findRow db.funders (fun s => ilikeMatch s name)

/-- crud.fuzzy_match_institution: same lookup on the institutions table. -/
def fuzzy_match_institution (db : DB) (name : String) (threshold : Rat) : Option EntityRow :=
  findRow db.institutions (fun s => ilikeMatch s name)

/-- Match-or-create on one table: return the first row whose name satisfies
the predicate,
else insert a row with the given name (Table-level core of the per-kind
find-or-create steps of crud.update_database). -/
def resolveWith (namePred : String → Bool) (name : String) (t : Table) : EntityRow × Table :=
  match findRow t namePred with
  | some f => (f, t)
  | none => insertRow t name

/-- Match-or-create each name of a list in order via ilike, threading the
table (the resolved row of a later name can be a row created for an earlier
one, as the autoflushing session makes pending rows visible). -/
def resolveChain : List String → Table → List EntityRow × Table
  | [], t => ([], t)
  | n :: rest, t =>
    let r := resolveWith (fun s => ilikeMatch s n) n t
    let rr := resolveChain rest r.2
    (r.1 :: rr.1, rr.2)

/-- Insert a pair edge unless it is already present (the membership guard of
the relationship append in crud.update_database). -/
def linkPair (x y : Nat) (edges : List (Nat × Nat)) : List (Nat × Nat) :=
  if (x, y) ∈ edges then edges else edges ++ [(x, y)]

/-- Guarded pair-edge insertion for each element of a list, left to right. -/
def linkPairs (x : Nat) : List Nat → List (Nat × Nat) → List (Nat × Nat)
  | [], edges => edges
  | y :: rest, edges => linkPairs x rest (linkPair x y edges)

/-- Guarded insertion of AuthorFunders triples (author_id, funder_id,
paper_id), one per resolved funder, skipping existing triples. -/
def linkTriples (a p : Nat) : List Nat → List (Nat × Nat × Nat) → List (Nat × Nat × Nat)
  | [], edges => edges
  | f :: rest, edges =>
    linkTriples a p rest (if (a, f, p) ∈ edges then edges else edges ++ [(a, f, p)])

/-- Step 8 of crud.update_database at table level: for each paper-level
funder name, match-or-create the funder and add the (paper, funder) edge
unless present. -/
def linkPaperFundersT (pid : Nat) : List String → Table → List (Nat × Nat) → Table × List (Nat × Nat)
  | [], t, edges => (t, edges)
  | n :: rest, t, edges =>
    let r := resolveWith (fun s => ilikeMatch s n) n t
    linkPaperFundersT pid rest r.2 (linkPair pid r.1.id edges)

/-- Loop of step 3 of crud.update_database: find or create a Funder row for
each funder listed on the author schema, collecting the resolved rows. -/
def authorFunderLoop : List String → DB → List EntityRow × DB
  | [], db => ([], db)
  | n :: rest, db =>
    let s : EntityRow × DB :=
      match fuzzy_match_funder db n defaultThreshold with
      | some f => (f, db)
      | none =>
        let r := insertRow db.funders n
        (r.1, { db with funders := r.2 })
    let rr := authorFunderLoop rest s.2
    (s.1 :: rr.1, rr.2)

/-- Loop of step 4 of crud.update_database: find or create an Institution row
for each institution listed on the author schema. -/
def institutionLoop : List String → DB → List EntityRow × DB
  | [], db => ([], db)
  | n :: rest, db =>
    let s : EntityRow × DB :=
      match fuzzy_match_institution db n defaultThreshold with
      | some i => (i, db)
      | none =>
        let r := insertRow db.institutions n
        (r.1, { db with institutions := r.2 })
    let rr := institutionLoop rest s.2
    (s.1 :: rr.1, rr.2)

/-- Loop of step 8 of crud.update_database: find or create each paper-level
funder and link it to the paper unless the edge exists. -/
def paperFunderLoop (pid : Nat) : List String → DB → DB
  | [], db => db
  | n :: rest, db =>
    let s : EntityRow × DB :=
      match fuzzy_match_funder db n defaultThreshold with
      | some f => (f, db)
      | none =>
        let r := insertRow db.funders n
        (r.1, { db with funders := r.2 })
    paperFunderLoop pid rest
      { s.2 with paperFunders := linkPair pid s.1.id s.2.paperFunders }

/-- crud.update_database: the single-session upsert of one (paper, author)
record pair.  The steps mirror the source: 1 find-or-create the Paper by
exact doi equality, 2 find-or-create the Author via fuzzy_match_author,
3 find-or-create the author funders, 4 find-or-create the author
institutions, 5 link the author to each institution unless linked, 6 create
the missing AuthorFunders triples, 7 link the author to the paper unless
linked, 8 find-or-create each paper-level funder and link it to the paper
(skipped when the funders field is absent; an empty list loops zero times
exactly as the falsy empty Python list skips the block), 9 commit.  Pending
rows are visible to later queries of the same call through the session
autoflush, and identifiers are assigned before any AuthorFunders triple is
built. -/
def update_database (paper : PaperSchema) (author : AuthorSchema) (db : DB) : DB :=
  let s1 : EntityRow × DB :=
    match db.papers.rows.find? (fun r => r.name == paper.doi) with
    | some x => (x, db)
    | none =>
      let r := insertRow db.papers paper.doi
      (r.1, { db with papers := r.2 })
  let s2 : EntityRow × DB :=
    match fuzzy_match_author s1.2 author.name defaultThreshold with
    | some a => (a, s1.2)
    | none =>
      let r := insertRow s1.2.authors author.name
      (r.1, { s1.2 with authors := r.2 })
  let s3 := authorFunderLoop (author.funders.map FunderSchema.name) s2.2
  let s4 := institutionLoop (author.institution.map InstitutionSchema.name) s3.2
  let db5 := { s4.2 with
    authorInstitutions := linkPairs s2.1.id (s4.1.map EntityRow.id) s4.2.authorInstitutions }
  let db6 := { db5 with
    authorFunders := linkTriples s2.1.id s1.1.id (s3.1.map EntityRow.id) db5.authorFunders }
  let db7 := { db6 with paperAuthors := linkPair s1.1.id s2.1.id db6.paperAuthors }
  match paper.funders with
  | none => db7
  | some pfs => paperFunderLoop s1.1.id (pfs.map FunderSchema.name) db7

/-- Parallel-field form of update_database: every step of the upsert reads
only the fields it writes (the one cross-step data flow, step 3 funders into
step 8, is threaded explicitly), so the whole call is the simultaneous update
below.  All structural lemmas are proved against this form and transported
through update_database_eq_core. -/
def updateCore (paper : PaperSchema) (author : AuthorSchema) (db : DB) : DB :=
  let pr := resolveWith (fun s => s == paper.doi) paper.doi db.papers
  let ar := resolveWith (fun s => ilikeMatch s author.name) author.name db.authors
  let fr := resolveChain (author.funders.map FunderSchema.name) db.funders
  let ir := resolveChain (author.institution.map InstitutionSchema.name) db.institutions
  let pfr :=
    match paper.funders with
    | none => (fr.2, db.paperFunders)
    | some pfs => linkPaperFundersT pr.1.id (pfs.map FunderSchema.name) fr.2 db.paperFunders
  { papers := pr.2
    authors := ar.2
    funders := pfr.1
    institutions := ir.2
    authorInstitutions := linkPairs ar.1.id (ir.1.map EntityRow.id) db.authorInstitutions
    paperAuthors := linkPair pr.1.id ar.1.id db.paperAuthors
    paperFunders := pfr.2
    authorFunders := linkTriples ar.1.id pr.1.id (fr.1.map EntityRow.id) db.authorFunders }

/-- data_acquisition.add_paper_to_db: run update_database once per listed
author; a paper whose authors field is absent or empty is skipped entirely
(the falsy check covers both None and the empty list). -/
def add_paper_to_db (paper : PaperSchema) (db : DB) : DB :=
  match paper.authors with
  | none => db
  | some [] => db
  | some authors => authors.foldl (fun db a => update_database paper a db) db

/-- Repeated ingestion: apply update_database for a whole sequence of
(paper, author) calls in order. -/
def applyCalls (calls : List (PaperSchema × AuthorSchema)) (db : DB) : DB :=
  calls.foldl (fun db c => update_database c.1 c.2 db) db

/-! Store invariants: foreign-key closure of the three-way association and
duplicate-freedom of the edge tables. -/

/-- Does the table contain a row with the given identifier. -/
def hasId (t : Table) (i : Nat) : Bool :=
  t.rows.any (fun r => r.id == i)

/-- Referential integrity of AuthorFunders: every row's three foreign keys
reference existing Author, Funder and Paper rows (the keys are natural
numbers, never null, by construction of the embedding). -/
def fkAF (db : DB) : Prop :=
  ∀ e ∈ db.authorFunders,
    hasId db.authors e.1 = true ∧ hasId db.funders e.2.1 = true ∧
      hasId db.papers e.2.2 = true

/-- No duplicate edges: each junction list and the three-way association
list is duplicate-free. -/
def edgesNodup (db : DB) : Prop :=
  db.authorInstitutions.Nodup ∧ db.paperAuthors.Nodup ∧
    db.paperFunders.Nodup ∧ db.authorFunders.Nodup

/-! Fault-injected variant of the upsert for the all-or-nothing property.
All writes of update_database go to the in-memory session and reach the
persistent store only through the single commit at the end of the call; a
store failure on any insert aborts the call, and closing the session rolls
the uncommitted transaction back.  The fault oracle marks which insert
(counted from 1 across the call, rows and edges alike) raises. -/

/-- Match-or-create under a fault oracle: the lookup is read-only and cannot
fail; the insert is the (k+1)-st write of the call. -/
def resolveWithF (fail : Nat → Bool) (m : String → Bool) (nm : String) (t : Table) (k : Nat) :
    Except Unit (EntityRow × Table × Nat) :=
  match findRow t m with
  | some f => .ok (f, t, k)
  | none =>
    if fail (k + 1) then .error ()
    else .ok ((insertRow t nm).1, (insertRow t nm).2, k + 1)

/-- Chained match-or-create under a fault oracle. -/
def resolveChainF (fail : Nat → Bool) :
    List String → Table → Nat → Except Unit (List EntityRow × Table × Nat)
  | [], t, k => .ok ([], t, k)
  | n :: rest, t, k =>
    match resolveWithF fail (fun s => ilikeMatch s n) n t k with
    | .error er => .error er
    | .ok (f, t1, k1) =>
      match resolveChainF fail rest t1 k1 with
      | .error er => .error er
      | .ok (fs, t2, k2) => .ok (f :: fs, t2, k2)

/-- Guarded pair-edge insert under a fault oracle. -/
def linkPairF (fail : Nat → Bool) (x y : Nat) (e : List (Nat × Nat)) (k : Nat) :
    Except Unit (List (Nat × Nat) × Nat) :=
  if (x, y) ∈ e then .ok (e, k)
  else if fail (k + 1) then .error () else .ok (e ++ [(x, y)], k + 1)

/-- Guarded pair-edge insertion loop under a fault oracle. -/
def linkPairsF (fail : Nat → Bool) (x : Nat) :
    List Nat → List (Nat × Nat) → Nat → Except Unit (List (Nat × Nat) × Nat)
  | [], e, k => .ok (e, k)
  | y :: rest, e, k =>
    match linkPairF fail x y e k with
    | .error er => .error er
    | .ok (e1, k1) => linkPairsF fail x rest e1 k1

/-- Guarded triple insert under a fault oracle. -/
def linkTripleF (fail : Nat → Bool) (a f p : Nat) (e : List (Nat × Nat × Nat)) (k : Nat) :
    Except Unit (List (Nat × Nat × Nat) × Nat) :=
  if (a, f, p) ∈ e then .ok (e, k)
  else if fail (k + 1) then .error () else .ok (e ++ [(a, f, p)], k + 1)

/-- Guarded triple insertion loop under a fault oracle. -/
def linkTriplesF (fail : Nat → Bool) (a p : Nat) :
    List Nat → List (Nat × Nat × Nat) → Nat → Except Unit (List (Nat × Nat × Nat) × Nat)
  | [], e, k => .ok (e, k)
  | f :: rest, e, k =>
    match linkTripleF fail a f p e k with
    | .error er => .error er
    | .ok (e1, k1) => linkTriplesF fail a p rest e1 k1

/-- Paper-funder resolve-and-link loop under a fault oracle. -/
def linkPaperFundersTF (fail : Nat → Bool) (pid : Nat) :
    List String → Table → List (Nat × Nat) → Nat →
    Except Unit (Table × List (Nat × Nat) × Nat)
  | [], t, e, k => .ok (t, e, k)
  | n :: rest, t, e, k =>
    match resolveWithF fail (fun s => ilikeMatch s n) n t k with
    | .error er => .error er
    | .ok (f, t1, k1) =>
      match linkPairF fail pid f.id e k1 with
      | .error er => .error er
      | .ok (e1, k2) => linkPaperFundersTF fail pid rest t1 e1 k2

/-- The whole upsert under a fault oracle, following the source step order:
paper, author, author funders, author institutions, author-institution
links, AuthorFunders triples, the paper-author link, then the paper-level
funders with their links.  On success it returns the session state that the
single final commit would persist, together with the number of inserts
performed. -/
def updateDatabaseFaulty (fail : Nat → Bool) (paper : PaperSchema) (author : AuthorSchema)
    (db : DB) : Except Unit (DB × Nat) :=
  match resolveWithF fail (fun s => s == paper.doi) paper.doi db.papers 0 with
  | .error er => .error er
  | .ok (P, pt, k1) =>
    match resolveWithF fail (fun s => ilikeMatch s author.name) author.name db.authors k1 with
    | .error er => .error er
    | .ok (A, at2, k2) =>
      match resolveChainF fail (author.funders.map FunderSchema.name) db.funders k2 with
      | .error er => .error er
      | .ok (afs, ft, k3) =>
        match resolveChainF fail (author.institution.map InstitutionSchema.name)
            db.institutions k3 with
        | .error er => .error er
        | .ok (ais, it, k4) =>
          match linkPairsF fail A.id (ais.map EntityRow.id) db.authorInstitutions k4 with
          | .error er => .error er
          | .ok (ai, k5) =>
            match linkTriplesF fail A.id P.id (afs.map EntityRow.id) db.authorFunders k5 with
            | .error er => .error er
            | .ok (af, k6) =>
              match linkPairF fail P.id A.id db.paperAuthors k6 with
              | .error er => .error er
              | .ok (pa, k7) =>
                match paper.funders with
                | none => .ok (⟨pt, at2, ft, it, ai, pa, db.paperFunders, af⟩, k7)
                | some pfs =>
                  match linkPaperFundersTF fail P.id (pfs.map FunderSchema.name) ft
                      db.paperFunders k7 with
                  | .error er => .error er
                  | .ok (ft2, pf2, k8) => .ok (⟨pt, at2, ft2, it, ai, pa, pf2, af⟩, k8)

/-- Did the faulty run abort before the commit. -/
def updateFailed (fail : Nat → Bool) (paper : PaperSchema) (author : AuthorSchema)
    (db : DB) : Bool :=
  match updateDatabaseFaulty fail paper author db with
  | .error _ => true
  | .ok _ => false

/-- Observable store state after a faulty run: an aborted run is rolled back
by the session close, and a commit failure also persists nothing; only a
successful commit publishes the session state. -/
def run_update_database (fail : Nat → Bool) (commitFails : Bool) (paper : PaperSchema)
    (author : AuthorSchema) (db : DB) : DB :=
  match updateDatabaseFaulty fail paper author db with
  | .error _ => db
  | .ok r => if commitFails then db else r.1

/-! Ingestion boundary (data_acquisition.py).  The HTTP layer is modelled by
an explicit response value: fetch_paper_data_from_openalex is a total
function of the DOI and the response, returning none exactly where the
source catches an exception or a not-found condition and returns None, and
never raising to its caller. -/

/-- One element of the authorships array of an OpenAlex work: the author
display name (absent when the payload lacks it) and the institution display
names of the affiliation list. -/
structure OpenAlexAuthorship where
  authorName : Option String
  institutions : List (Option String)
deriving DecidableEq, Repr

/-- One element of the grants array: the funder display name, when present. -/
structure OpenAlexGrant where
  funderDisplayName : Option String
deriving DecidableEq, Repr

/-- The fields of an OpenAlex work record consumed by the ingestion code. -/
structure OpenAlexWork where
  doi : Option String
  authorships : List OpenAlexAuthorship
  grants : List OpenAlexGrant
deriving DecidableEq, Repr

/-- Outcome of the HTTP request to the OpenAlex API: an HTTP error status
(raise_for_status path, 404 meaning not found), a transport failure
(RequestException path), a body that is not valid JSON, or a parsed work. -/
inductive ApiResponse where
  | httpError (status : Nat)
  | transportError
  | invalidJson
  | ok (work : OpenAlexWork)
deriving DecidableEq, Repr

/-- Strip the resolvable-URL form of a DOI down to the bare identifier. -/
def stripDoiUrl (d : String) : String :=
  if d.startsWith "https://doi.org/" then d.drop ("https://doi.org/".length) else d

/-- Collect the funder display names of the grants in order, skipping absent
and empty names and duplicates (the falsy-and-not-any guard of the source). -/
def collectGrantFunders (grants : List OpenAlexGrant) : List FunderSchema :=
  grants.foldl
    (fun acc g =>
      match g.funderDisplayName with
      | some nm =>
        if nm != "" && !(acc.any (fun f => f.name == nm)) then acc ++ [⟨nm⟩] else acc
      | none => acc)
    []

/-- data_acquisition.fetch_paper_data_from_openalex: on any HTTP error
(including 404), transport error or JSON decode failure the function logs
and returns none; otherwise it builds the Pydantic paper schema, stripping
the DOI URL prefix (falling back to the input DOI), skipping authors with a
missing or empty display name, keeping institutions with a present non-empty
name, and attributing the deduplicated grant funders both to every author
and to the paper itself. -/
def fetch_paper_data_from_openalex (doi : String) (response : ApiResponse) :
    Option PaperSchema :=
  let d := stripDoiUrl doi
  match response with
  | .httpError _ => none
  | .transportError => none
  | .invalidJson => none
  | .ok w =>
    let extractedDoi :=
      match w.doi with
      | some ed =>
        if ed.startsWith "https://doi.org/" then ed.drop ("https://doi.org/".length) else d
      | none => d
    let authorsSchemas := w.authorships.foldl
      (fun acc au =>
        match au.authorName with
        | none => acc
        | some nm =>
          if nm = "" then acc
          else
            let insts := au.institutions.foldl
              (fun acc2 i =>
                match i with
                | some inm => if inm = "" then acc2 else acc2 ++ [InstitutionSchema.mk inm]
                | none => acc2)
              []
            acc ++ [AuthorSchema.mk nm insts (collectGrantFunders w.grants)])
      []
    some (PaperSchema.mk extractedDoi (some authorsSchemas)
      (some (collectGrantFunders w.grants)))

/-- The ingestion flow of data_acquisition: fetch, then add to the store
only when a paper schema came back; an absent result touches the store not
at all. -/
def ingest_doi (doi : String) (response : ApiResponse) (db : DB) : DB :=
  match fetch_paper_data_from_openalex doi response with
  | none => db
  | some ps => add_paper_to_db ps db

/-! Concrete inputs used by the end-to-end statements. -/

/-- Paper record of end-to-end scenario 1: doi 10.1/x with the paper-level
funder DARPA. -/
def scenarioPaper : PaperSchema := ⟨"10.1/x", none, some [⟨"DARPA"⟩]⟩

/-- Author record of end-to-end scenario 1: Alice at MIT, funded by NSF. -/
def scenarioAuthor : AuthorSchema := ⟨"Alice", [⟨"MIT"⟩], [⟨"NSF"⟩]⟩

/-- Author record listing the same institution and funder names twice. -/
def dupAuthor : AuthorSchema := ⟨"Alice", [⟨"MIT"⟩, ⟨"MIT"⟩], [⟨"NSF"⟩, ⟨"NSF"⟩]⟩

/-- A store holding exactly one institution row named MIT. -/
def mitDB : DB := ⟨⟨[], 1⟩, ⟨[], 1⟩, ⟨[], 1⟩, ⟨[⟨1, "MIT"⟩], 2⟩, [], [], [], []⟩

/-- Fault oracle making the first insert of a call fail. -/
def failFirst : Nat → Bool := fun n => n == 1

/-! Lemmas about the LIKE matcher. -/

/-- Every string LIKE-matches itself (used for replay: a freshly created row
is found again by the query that failed just before the creation). -/
theorem likeChars_self : ∀ l : List Char, likeChars l l = true := by
  intro l
  induction l with
  | nil => rfl
  | cons c p ih =>
    by_cases hc : c = '%'
    · subst hc
      rw [likeChars, if_pos rfl, List.any_eq_true]
      exact ⟨p, (List.mem_tails p ('%' :: p)).mpr (List.suffix_cons '%' p), ih⟩
    · simp [likeChars, if_neg hc, ih]

/-- Self-matching at string level. -/
theorem ilikeMatch_self (s : String) : ilikeMatch s s = true :=
  likeChars_self s.data

/-- On wildcard-free patterns, LIKE matching is exactly case-insensitive
equality of the character lists. -/
theorem likeChars_no_wildcard : ∀ (p t : List Char),
    (∀ c ∈ p, ¬c = '%' ∧ ¬c = '_') →
    (likeChars p t = true ↔ p.map Char.toLower = t.map Char.toLower) := by
  intro p
  induction p with
  | nil =>
    intro t h
    cases t <;> simp [likeChars]
  | cons c p ih =>
    intro t h
    have hc := h c (List.mem_cons_self c p)
    cases t with
    | nil => simp [likeChars, if_neg hc.1]
    | cons d t2 =>
      have hrest : ∀ x ∈ p, ¬x = '%' ∧ ¬x = '_' := fun x hx => h x (List.mem_cons_of_mem c hx)
      have hu : (c == '_') = false := by
        simpa using hc.2
      simp only [likeChars, if_neg hc.1, hu, Bool.false_or, Bool.and_eq_true, beq_iff_eq,
        List.map_cons, List.cons.injEq, ih t2 hrest]

/-- Wildcard-free queries under ilike are case-insensitive exact name
equality. -/
theorem ilikeMatch_eq_lower (s q : String) (h : noWildcard q = true) :
    ilikeMatch s q = true ↔ lowerName s = lowerName q := by
  have hq : ∀ c ∈ q.data, ¬c = '%' ∧ ¬c = '_' := by
    intro c hcq
    have := (List.all_eq_true.mp h) c hcq
    constructor <;> intro hce <;> simp [hce] at this
  unfold ilikeMatch lowerName
  rw [likeChars_no_wildcard q.data s.data hq]
  exact ⟨fun h2 => h2.symm, fun h2 => h2.symm⟩


/-! Lemmas about match-or-create on a single table. -/

/-- The row returned by match-or-create satisfies the predicate, provided the
inserted name would (true for both uses: doi equality and LIKE
self-matching). -/
theorem resolveWith_pred (m : String → Bool) (nm : String) (t : Table)
    (hm : m nm = true) : m (resolveWith m nm t).1.name = true := by
  unfold resolveWith
  cases hf : findRow t m with
  | some g =>
    have := List.find?_some hf
    simpa using this
  | none => simpa [insertRow] using hm

/-- Match-or-create only ever appends rows. -/
theorem resolveWith_rows (m : String → Bool) (nm : String) (t : Table) :
    (resolveWith m nm t).2.rows = t.rows ∨
    (resolveWith m nm t).2.rows = t.rows ++ [(resolveWith m nm t).1] := by
  unfold resolveWith
  cases hf : findRow t m with
  | some g => exact Or.inl rfl
  | none => exact Or.inr rfl

/-- The resolved row is a row of the resulting table. -/
theorem resolveWith_mem (m : String → Bool) (nm : String) (t : Table) :
    (resolveWith m nm t).1 ∈ (resolveWith m nm t).2.rows := by
  unfold resolveWith
  cases hf : findRow t m with
  | some g =>
    exact List.mem_of_find?_eq_some hf
  | none => simp [insertRow]

/-- Replay: once match-or-create has resolved a name, running it again on any
extension of the resulting table finds the same row and changes nothing. -/
theorem resolveWith_replay (m : String → Bool) (nm : String) (t t2 : Table)
    (ext : List EntityRow) (hm : m nm = true)
    (h2 : t2.rows = (resolveWith m nm t).2.rows ++ ext) :
    resolveWith m nm t2 = ((resolveWith m nm t).1, t2) := by
  unfold resolveWith at h2 ⊢
  unfold findRow at h2 ⊢
  cases hf : t.rows.find? (fun r => m r.name) with
  | some g =>
    simp only [findRow, hf] at h2
    have hfind : t2.rows.find? (fun r => m r.name) = some g := by
      rw [h2, List.find?_append, hf]
      rfl
    simp [hfind, hf]
  | none =>
    simp only [findRow, hf, insertRow] at h2
    have hfind : t2.rows.find? (fun r => m r.name) =
        some ⟨t.next, nm⟩ := by
      rw [h2, List.append_assoc, List.find?_append, hf, Option.none_or, List.find?_append]
      have hsingle : List.find? (fun r => m r.name) [(⟨t.next, nm⟩ : EntityRow)] =
          some (⟨t.next, nm⟩ : EntityRow) := by
        simp [List.find?, hm]
      rw [hsingle]
      rfl
    simp [hfind, hf, insertRow]

/-! Lemmas about the chained match-or-create over a list of names. -/

/-- The chain only ever appends rows. -/
theorem resolveChain_rows : ∀ (ns : List String) (t : Table),
    ∃ new, (resolveChain ns t).2.rows = t.rows ++ new := by
  intro ns
  induction ns with
  | nil => intro t; exact ⟨[], by simp [resolveChain]⟩
  | cons n rest ih =>
    intro t
    rcases ih (resolveWith (fun s => ilikeMatch s n) n t).2 with ⟨new1, h1⟩
    rcases resolveWith_rows (fun s => ilikeMatch s n) n t with hs | hs
    · refine ⟨new1, ?_⟩
      simp only [resolveChain]
      rw [h1, hs]
    · refine ⟨(resolveWith (fun s => ilikeMatch s n) n t).1 :: new1, ?_⟩
      simp only [resolveChain]
      rw [h1, hs, List.append_assoc]
      rfl

/-- Every row the chain returns is a row of the resulting table. -/
theorem resolveChain_mem : ∀ (ns : List String) (t : Table),
    ∀ f ∈ (resolveChain ns t).1, f ∈ (resolveChain ns t).2.rows := by
  intro ns
  induction ns with
  | nil =>
    intro t f hf
    simp [resolveChain] at hf
  | cons n rest ih =>
    intro t f hf
    simp only [resolveChain, List.mem_cons] at hf ⊢
    rcases hf with hf | hf
    · subst hf
      rcases resolveChain_rows rest (resolveWith (fun s => ilikeMatch s n) n t).2 with ⟨new1, h1⟩
      rw [h1]
      exact List.mem_append_left _ (resolveWith_mem _ _ _)
    · exact ih _ f hf

/-- Replay for the chain: on any extension of the final table, resolving the
same names again returns the same rows and changes nothing. -/
theorem resolveChain_replay : ∀ (ns : List String) (t t2 : Table) (ext : List EntityRow),
    t2.rows = (resolveChain ns t).2.rows ++ ext →
    resolveChain ns t2 = ((resolveChain ns t).1, t2) := by
  intro ns
  induction ns with
  | nil =>
    intro t t2 ext h2
    simp [resolveChain]
  | cons n rest ih =>
    intro t t2 ext h2
    simp only [resolveChain] at h2 ⊢
    rcases resolveChain_rows rest (resolveWith (fun s => ilikeMatch s n) n t).2 with ⟨new1, h1⟩
    have hfirst : resolveWith (fun s => ilikeMatch s n) n t2 =
        ((resolveWith (fun s => ilikeMatch s n) n t).1, t2) := by
      refine resolveWith_replay _ _ t t2 (new1 ++ ext) (ilikeMatch_self n) ?_
      rw [h2, h1, List.append_assoc]
    rw [hfirst]
    have hrest : resolveChain rest t2 = ((resolveChain rest (resolveWith (fun s => ilikeMatch s n) n t).2).1, t2) :=
      ih _ t2 ext h2
    rw [hrest]

/-! Lemmas about the guarded edge insertions. -/

/-- The guarded pair insert contains the inserted pair. -/
theorem linkPair_self_mem (x y : Nat) (e : List (Nat × Nat)) : (x, y) ∈ linkPair x y e := by
  unfold linkPair
  by_cases h : (x, y) ∈ e
  · simpa [h]
  · simp [h]

/-- The guarded pair insert keeps existing edges. -/
theorem linkPair_mono (x y : Nat) (e : List (Nat × Nat)) (z : Nat × Nat) (hz : z ∈ e) :
    z ∈ linkPair x y e := by
  unfold linkPair
  by_cases h : (x, y) ∈ e
  · simpa [h]
  · simp [h, hz]

/-- Inserting an already present pair changes nothing. -/
theorem linkPair_of_mem (x y : Nat) (e : List (Nat × Nat)) (h : (x, y) ∈ e) :
    linkPair x y e = e := by
  simp [linkPair, h]

/-- Appending one not-yet-present element keeps a list duplicate-free. -/
theorem nodup_snoc {α : Type} (a : α) (l : List α) (ha : a ∉ l) (hl : l.Nodup) :
    (l ++ [a]).Nodup := by
  rw [List.nodup_append]
  refine ⟨hl, List.nodup_singleton a, ?_⟩
  intro x hx hxa
  rcases List.mem_singleton.mp hxa with rfl
  exact ha hx

/-- The guarded pair insert preserves duplicate-freedom. -/
theorem linkPair_nodup (x y : Nat) (e : List (Nat × Nat)) (h : e.Nodup) :
    (linkPair x y e).Nodup := by
  unfold linkPair
  by_cases hm : (x, y) ∈ e
  · simpa [hm]
  · simp only [if_neg hm]
    exact nodup_snoc _ _ hm h

/-- Edges are never removed by the pair-linking loop. -/
theorem linkPairs_mono (x : Nat) : ∀ (ys : List Nat) (e : List (Nat × Nat)) (z : Nat × Nat),
    z ∈ e → z ∈ linkPairs x ys e := by
  intro ys
  induction ys with
  | nil => intro e z hz; exact hz
  | cons y rest ih =>
    intro e z hz
    exact ih _ z (linkPair_mono x y e z hz)

/-- After the pair-linking loop, every listed pair is present. -/
theorem linkPairs_mem_all (x : Nat) : ∀ (ys : List Nat) (e : List (Nat × Nat)),
    ∀ y ∈ ys, (x, y) ∈ linkPairs x ys e := by
  intro ys
  induction ys with
  | nil => intro e y hy; cases hy
  | cons y0 rest ih =>
    intro e y hy
    unfold linkPairs
    rcases List.mem_cons.mp hy with rfl | hy
    · exact linkPairs_mono x rest _ _ (linkPair_self_mem x y e)
    · exact ih _ y hy

/-- Linking pairs that are all already present changes nothing. -/
theorem linkPairs_noop (x : Nat) : ∀ (ys : List Nat) (e : List (Nat × Nat)),
    (∀ y ∈ ys, (x, y) ∈ e) → linkPairs x ys e = e := by
  intro ys
  induction ys with
  | nil => intro e _; rfl
  | cons y rest ih =>
    intro e h
    unfold linkPairs
    rw [linkPair_of_mem x y e (h y (List.mem_cons_self y rest))]
    exact ih e (fun z hz => h z (List.mem_cons_of_mem y hz))

/-- The pair-linking loop preserves duplicate-freedom. -/
theorem linkPairs_nodup (x : Nat) : ∀ (ys : List Nat) (e : List (Nat × Nat)),
    e.Nodup → (linkPairs x ys e).Nodup := by
  intro ys
  induction ys with
  | nil => intro e h; exact h
  | cons y rest ih =>
    intro e h
    exact ih _ (linkPair_nodup x y e h)

/-- Edges are never removed by the triple-linking loop. -/
theorem linkTriples_mono (a p : Nat) : ∀ (fs : List Nat) (e : List (Nat × Nat × Nat))
    (z : Nat × Nat × Nat), z ∈ e → z ∈ linkTriples a p fs e := by
  intro fs
  induction fs with
  | nil => intro e z hz; exact hz
  | cons f rest ih =>
    intro e z hz
    unfold linkTriples
    by_cases hm : (a, f, p) ∈ e
    · simpa [hm] using ih e z hz
    · simp only [if_neg hm]
      exact ih _ z (List.mem_append_left _ hz)

/-- After the triple-linking loop, every listed triple is present. -/
theorem linkTriples_mem_all (a p : Nat) : ∀ (fs : List Nat) (e : List (Nat × Nat × Nat)),
    ∀ f ∈ fs, (a, f, p) ∈ linkTriples a p fs e := by
  intro fs
  induction fs with
  | nil => intro e f hf; cases hf
  | cons f0 rest ih =>
    intro e f hf
    unfold linkTriples
    rcases List.mem_cons.mp hf with rfl | hf
    · refine linkTriples_mono a p rest _ _ ?_
      by_cases hm : (a, f, p) ∈ e
      · simpa [hm]
      · simp [hm]
    · exact ih _ f hf

/-- Linking triples that are all already present changes nothing. -/
theorem linkTriples_noop (a p : Nat) : ∀ (fs : List Nat) (e : List (Nat × Nat × Nat)),
    (∀ f ∈ fs, (a, f, p) ∈ e) → linkTriples a p fs e = e := by
  intro fs
  induction fs with
  | nil => intro e _; rfl
  | cons f rest ih =>
    intro e h
    unfold linkTriples
    rw [if_pos (h f (List.mem_cons_self f rest))]
    exact ih e (fun z hz => h z (List.mem_cons_of_mem f hz))

/-- The triple-linking loop preserves duplicate-freedom. -/
theorem linkTriples_nodup (a p : Nat) : ∀ (fs : List Nat) (e : List (Nat × Nat × Nat)),
    e.Nodup → (linkTriples a p fs e).Nodup := by
  intro fs
  induction fs with
  | nil => intro e h; exact h
  | cons f rest ih =>
    intro e h
    unfold linkTriples
    by_cases hm : (a, f, p) ∈ e
    · simpa [hm] using ih e h
    · simp only [if_neg hm]
      exact ih _ (nodup_snoc _ _ hm h)

/-! Lemmas about the combined resolve-and-link loop for paper funders. -/

/-- The loop only ever appends funder rows. -/
theorem linkPFT_rows (pid : Nat) : ∀ (ns : List String) (t : Table) (e : List (Nat × Nat)),
    ∃ new, (linkPaperFundersT pid ns t e).1.rows = t.rows ++ new := by
  intro ns
  induction ns with
  | nil => intro t e; exact ⟨[], by simp [linkPaperFundersT]⟩
  | cons n rest ih =>
    intro t e
    simp only [linkPaperFundersT]
    rcases ih (resolveWith (fun s => ilikeMatch s n) n t).2
      (linkPair pid (resolveWith (fun s => ilikeMatch s n) n t).1.id e) with ⟨new1, h1⟩
    rcases resolveWith_rows (fun s => ilikeMatch s n) n t with hs | hs
    · exact ⟨new1, by rw [h1, hs]⟩
    · exact ⟨(resolveWith (fun s => ilikeMatch s n) n t).1 :: new1, by
        rw [h1, hs, List.append_assoc]; rfl⟩

/-- Edges are never removed by the loop. -/
theorem linkPFT_edges_mono (pid : Nat) : ∀ (ns : List String) (t : Table) (e : List (Nat × Nat))
    (z : Nat × Nat), z ∈ e → z ∈ (linkPaperFundersT pid ns t e).2 := by
  intro ns
  induction ns with
  | nil => intro t e z hz; exact hz
  | cons n rest ih =>
    intro t e z hz
    simp only [linkPaperFundersT]
    exact ih _ _ z (linkPair_mono _ _ _ z hz)

/-- The loop preserves duplicate-freedom of the paper-funder edges. -/
theorem linkPFT_edges_nodup (pid : Nat) : ∀ (ns : List String) (t : Table) (e : List (Nat × Nat)),
    e.Nodup → (linkPaperFundersT pid ns t e).2.Nodup := by
  intro ns
  induction ns with
  | nil => intro t e h; exact h
  | cons n rest ih =>
    intro t e h
    simp only [linkPaperFundersT]
    exact ih _ _ (linkPair_nodup _ _ _ h)

/-- Replay for the loop: once it has run, running it again on any extension
of the resulting funder table with at least the resulting edges changes
nothing. -/
theorem linkPFT_replay (pid : Nat) : ∀ (ns : List String) (t t2 : Table)
    (e e2 : List (Nat × Nat)) (ext : List EntityRow),
    t2.rows = (linkPaperFundersT pid ns t e).1.rows ++ ext →
    (∀ z ∈ (linkPaperFundersT pid ns t e).2, z ∈ e2) →
    linkPaperFundersT pid ns t2 e2 = (t2, e2) := by
  intro ns
  induction ns with
  | nil =>
    intro t t2 e e2 ext hrows hedges
    rfl
  | cons n rest ih =>
    intro t t2 e e2 ext hrows hedges
    simp only [linkPaperFundersT] at hrows hedges ⊢
    rcases linkPFT_rows pid rest (resolveWith (fun s => ilikeMatch s n) n t).2
      (linkPair pid (resolveWith (fun s => ilikeMatch s n) n t).1.id e) with ⟨new1, h1⟩
    have hfirst : resolveWith (fun s => ilikeMatch s n) n t2 =
        ((resolveWith (fun s => ilikeMatch s n) n t).1, t2) := by
      refine resolveWith_replay _ _ t t2 (new1 ++ ext) (ilikeMatch_self n) ?_
      rw [hrows, h1, List.append_assoc]
    rw [hfirst]
    have hmem : (pid, (resolveWith (fun s => ilikeMatch s n) n t).1.id) ∈ e2 := by
      refine hedges _ ?_
      exact linkPFT_edges_mono pid rest _ _ _ (linkPair_self_mem _ _ _)
    rw [linkPair_of_mem _ _ _ hmem]
    exact ih _ t2 _ e2 ext hrows hedges

/-! Characterization of the DB-level loops in terms of the table-level core. -/

/-- The author-funder loop is the table-level chain on the funders table. -/
theorem authorFunderLoop_eq : ∀ (ns : List String) (db : DB),
    authorFunderLoop ns db =
      ((resolveChain ns db.funders).1,
        { db with funders := (resolveChain ns db.funders).2 }) := by
  intro ns
  induction ns with
  | nil => intro db; rfl
  | cons n rest ih =>
    intro db
    simp only [authorFunderLoop, resolveChain, fuzzy_match_funder, resolveWith]
    cases hf : findRow db.funders (fun s => ilikeMatch s n) with
    | some f => simp [ih]
    | none => simp [ih, insertRow]

/-- The institution loop is the table-level chain on the institutions table. -/
theorem institutionLoop_eq : ∀ (ns : List String) (db : DB),
    institutionLoop ns db =
      ((resolveChain ns db.institutions).1,
        { db with institutions := (resolveChain ns db.institutions).2 }) := by
  intro ns
  induction ns with
  | nil => intro db; rfl
  | cons n rest ih =>
    intro db
    simp only [institutionLoop, resolveChain, fuzzy_match_institution, resolveWith]
    cases hf : findRow db.institutions (fun s => ilikeMatch s n) with
    | some f => simp [ih]
    | none => simp [ih, insertRow]

/-- The paper-funder loop is the table-level resolve-and-link loop. -/
theorem paperFunderLoop_eq : ∀ (pid : Nat) (ns : List String) (db : DB),
    paperFunderLoop pid ns db =
      { db with
          funders := (linkPaperFundersT pid ns db.funders db.paperFunders).1,
          paperFunders := (linkPaperFundersT pid ns db.funders db.paperFunders).2 } := by
  intro pid ns
  induction ns with
  | nil => intro db; rfl
  | cons n rest ih =>
    intro db
    simp only [paperFunderLoop, linkPaperFundersT, fuzzy_match_funder, resolveWith]
    cases hf : findRow db.funders (fun s => ilikeMatch s n) with
    | some f => simp [ih]
    | none => simp [ih, insertRow]

/-- The upsert equals its parallel-field core form: each step of the upsert
reads only the fields it writes, so the sequential session program computes
the simultaneous field update of updateCore. -/
theorem update_database_eq_core (p : PaperSchema) (a : AuthorSchema) (db : DB) :
    update_database p a db = updateCore p a db := by
  rcases p with ⟨doi, aus, pfu⟩
  simp only [update_database, updateCore, fuzzy_match_author, resolveWith, findRow]
  cases h1 : db.papers.rows.find? (fun r => r.name == doi) with
  | some x =>
    cases h2 : db.authors.rows.find? (fun r => ilikeMatch r.name a.name) with
    | some y =>
      simp only [authorFunderLoop_eq, institutionLoop_eq]
      cases pfu with
      | none => rfl
      | some pfs => simp only [paperFunderLoop_eq]
    | none =>
      simp only [authorFunderLoop_eq, institutionLoop_eq, insertRow]
      cases pfu with
      | none => rfl
      | some pfs => simp only [paperFunderLoop_eq]
  | none =>
    cases h2 : db.authors.rows.find? (fun r => ilikeMatch r.name a.name) with
    | some y =>
      simp only [authorFunderLoop_eq, institutionLoop_eq, insertRow]
      cases pfu with
      | none => rfl
      | some pfs => simp only [paperFunderLoop_eq]
    | none =>
      simp only [authorFunderLoop_eq, institutionLoop_eq, insertRow]
      cases pfu with
      | none => rfl
      | some pfs => simp only [paperFunderLoop_eq]

/-- Idempotence of the parallel-field core: a second run with identical
inputs resolves exactly the rows the first run resolved or created and
finds every edge already present, changing nothing. -/
theorem updateCore_idem (p : PaperSchema) (a : AuthorSchema) (db : DB) :
    updateCore p a (updateCore p a db) = updateCore p a db := by
  rcases hpr : resolveWith (fun s => s == p.doi) p.doi db.papers with ⟨P, pt⟩
  rcases har : resolveWith (fun s => ilikeMatch s a.name) a.name db.authors with ⟨A, at2⟩
  rcases hfr : resolveChain (a.funders.map FunderSchema.name) db.funders with ⟨afs, ft⟩
  rcases hir : resolveChain (a.institution.map InstitutionSchema.name) db.institutions with ⟨ais, it⟩
  have hP2 : resolveWith (fun s => s == p.doi) p.doi pt = (P, pt) := by
    have := resolveWith_replay (fun s => s == p.doi) p.doi db.papers pt []
      (by simp) (by rw [hpr]; simp)
    rwa [hpr] at this
  have hA2 : resolveWith (fun s => ilikeMatch s a.name) a.name at2 = (A, at2) := by
    have := resolveWith_replay (fun s => ilikeMatch s a.name) a.name db.authors at2 []
      (ilikeMatch_self a.name) (by rw [har]; simp)
    rwa [har] at this
  have hI2 : resolveChain (a.institution.map InstitutionSchema.name) it = (ais, it) := by
    have := resolveChain_replay (a.institution.map InstitutionSchema.name) db.institutions it []
      (by rw [hir]; simp)
    rwa [hir] at this
  have hAI : linkPairs A.id (ais.map EntityRow.id)
      (linkPairs A.id (ais.map EntityRow.id) db.authorInstitutions) =
      linkPairs A.id (ais.map EntityRow.id) db.authorInstitutions :=
    linkPairs_noop _ _ _ (fun y hy => linkPairs_mem_all A.id _ db.authorInstitutions y hy)
  have hPA : linkPair P.id A.id (linkPair P.id A.id db.paperAuthors) =
      linkPair P.id A.id db.paperAuthors :=
    linkPair_of_mem _ _ _ (linkPair_self_mem _ _ _)
  have hAF : linkTriples A.id P.id (afs.map EntityRow.id)
      (linkTriples A.id P.id (afs.map EntityRow.id) db.authorFunders) =
      linkTriples A.id P.id (afs.map EntityRow.id) db.authorFunders :=
    linkTriples_noop _ _ _ _ (fun f hf => linkTriples_mem_all A.id P.id _ db.authorFunders f hf)
  cases hpfu : p.funders with
  | none =>
    have hF2 : resolveChain (a.funders.map FunderSchema.name) ft = (afs, ft) := by
      have := resolveChain_replay (a.funders.map FunderSchema.name) db.funders ft []
        (by rw [hfr]; simp)
      rwa [hfr] at this
    simp only [updateCore, hpr, har, hfr, hir, hpfu]
    simp only [hP2, hA2, hF2, hI2, hAI, hPA, hAF]
  | some pfs =>
    rcases hpf : linkPaperFundersT P.id (pfs.map FunderSchema.name) ft db.paperFunders
      with ⟨ft2, pf2⟩
    rcases linkPFT_rows P.id (pfs.map FunderSchema.name) ft db.paperFunders with ⟨new1, hnew1⟩
    rw [hpf] at hnew1
    have hF2 : resolveChain (a.funders.map FunderSchema.name) ft2 = (afs, ft2) := by
      have := resolveChain_replay (a.funders.map FunderSchema.name) db.funders ft2 new1
        (by rw [hfr]; exact hnew1)
      rwa [hfr] at this
    have hPF2 : linkPaperFundersT P.id (pfs.map FunderSchema.name) ft2 pf2 = (ft2, pf2) := by
      refine linkPFT_replay P.id (pfs.map FunderSchema.name) ft ft2 db.paperFunders pf2 [] ?_ ?_
      · rw [hpf]; simp
      · rw [hpf]; exact fun z hz => hz
    simp only [updateCore, hpr, har, hfr, hir, hpfu, hpf]
    simp only [hP2, hA2, hF2, hI2, hPF2, hAI, hPA, hAF]

/-- Row containment survives appends. -/
theorem hasId_ext (t t2 : Table) (i : Nat) (ext : List EntityRow)
    (h : hasId t i = true) (h2 : t2.rows = t.rows ++ ext) : hasId t2 i = true := by
  unfold hasId at h ⊢
  rw [h2, List.any_append, h]
  rfl

/-- A member row witnesses its own identifier. -/
theorem hasId_of_mem (t : Table) (r : EntityRow) (h : r ∈ t.rows) : hasId t r.id = true := by
  unfold hasId
  rw [List.any_eq_true]
  exact ⟨r, h, by simp⟩

/-- Match-or-create extends the table by zero or one row. -/
theorem resolveWith_rows_ext (m : String → Bool) (nm : String) (t : Table) :
    ∃ ext, (resolveWith m nm t).2.rows = t.rows ++ ext := by
  rcases resolveWith_rows m nm t with h | h
  · exact ⟨[], by rw [h, List.append_nil]⟩
  · exact ⟨[(resolveWith m nm t).1], h⟩

/-- Provenance of triples after the triple-linking loop: a triple was either
already present or is one of the listed ones. -/
theorem linkTriples_mem_src (a p : Nat) : ∀ (fs : List Nat) (e : List (Nat × Nat × Nat))
    (z : Nat × Nat × Nat), z ∈ linkTriples a p fs e → z ∈ e ∨ ∃ f ∈ fs, z = (a, f, p) := by
  intro fs
  induction fs with
  | nil => intro e z hz; exact Or.inl hz
  | cons f0 rest ih =>
    intro e z hz
    unfold linkTriples at hz
    by_cases hm : (a, f0, p) ∈ e
    · rw [if_pos hm] at hz
      rcases ih e z hz with h | ⟨f, hf, rfl⟩
      · exact Or.inl h
      · exact Or.inr ⟨f, List.mem_cons_of_mem f0 hf, rfl⟩
    · rw [if_neg hm] at hz
      rcases ih _ z hz with h | ⟨f, hf, rfl⟩
      · rcases List.mem_append.mp h with h | h
        · exact Or.inl h
        · rcases List.mem_singleton.mp h with rfl
          exact Or.inr ⟨f0, List.mem_cons_self f0 rest, rfl⟩
      · exact Or.inr ⟨f, List.mem_cons_of_mem f0 hf, rfl⟩

/-- Preservation of referential integrity by one upsert call: old triples
keep referencing rows of the grown tables, and each new triple references
the resolved author, funder and paper rows of the final state. -/
theorem updateCore_fkAF (p : PaperSchema) (a : AuthorSchema) (db : DB) (h : fkAF db) :
    fkAF (updateCore p a db) := by
  rcases hpr : resolveWith (fun s => s == p.doi) p.doi db.papers with ⟨P, pt⟩
  rcases har : resolveWith (fun s => ilikeMatch s a.name) a.name db.authors with ⟨A, at2⟩
  rcases hfr : resolveChain (a.funders.map FunderSchema.name) db.funders with ⟨afs, ft⟩
  rcases hir : resolveChain (a.institution.map InstitutionSchema.name) db.institutions with ⟨ais, it⟩
  have hptx : ∃ ex, pt.rows = db.papers.rows ++ ex := by
    have := resolveWith_rows_ext (fun s => s == p.doi) p.doi db.papers
    rwa [hpr] at this
  have hatx : ∃ ex, at2.rows = db.authors.rows ++ ex := by
    have := resolveWith_rows_ext (fun s => ilikeMatch s a.name) a.name db.authors
    rwa [har] at this
  have hftx : ∃ ex, ft.rows = db.funders.rows ++ ex := by
    have := resolveChain_rows (a.funders.map FunderSchema.name) db.funders
    rwa [hfr] at this
  have hAmem : A ∈ at2.rows := by
    have := resolveWith_mem (fun s => ilikeMatch s a.name) a.name db.authors
    rwa [har] at this
  have hPmem : P ∈ pt.rows := by
    have := resolveWith_mem (fun s => s == p.doi) p.doi db.papers
    rwa [hpr] at this
  have main : ∀ (F : Table), (∃ ex, F.rows = ft.rows ++ ex) →
      ∀ e ∈ linkTriples A.id P.id (afs.map EntityRow.id) db.authorFunders,
        hasId at2 e.1 = true ∧ hasId F e.2.1 = true ∧ hasId pt e.2.2 = true := by
    rintro F ⟨ex, hex⟩ e he
    have hFx : ∃ ey, F.rows = db.funders.rows ++ ey := by
      rcases hftx with ⟨ez, hez⟩
      exact ⟨ez ++ ex, by rw [hex, hez, List.append_assoc]⟩
    rcases linkTriples_mem_src A.id P.id (afs.map EntityRow.id) db.authorFunders e he with
      hold | ⟨fid, hfid, rfl⟩
    · rcases h e hold with ⟨k1, k2, k3⟩
      rcases hatx with ⟨ea, hea⟩
      rcases hFx with ⟨ey, hey⟩
      rcases hptx with ⟨ep, hep⟩
      exact ⟨hasId_ext _ _ _ _ k1 hea, hasId_ext _ _ _ _ k2 hey, hasId_ext _ _ _ _ k3 hep⟩
    · rcases List.mem_map.mp hfid with ⟨f, hfafs, rfl⟩
      have hfmem : f ∈ ft.rows := by
        have := resolveChain_mem (a.funders.map FunderSchema.name) db.funders f
        rw [hfr] at this
        exact this hfafs
      refine ⟨hasId_of_mem _ _ hAmem, ?_, hasId_of_mem _ _ hPmem⟩
      have : f ∈ F.rows := by
        rw [hex]
        exact List.mem_append_left _ hfmem
      exact hasId_of_mem _ _ this
  cases hpfu : p.funders with
  | none =>
    simp only [updateCore, hpr, har, hfr, hir, hpfu]
    intro e he
    exact main ft ⟨[], by simp⟩ e he
  | some pfs =>
    rcases hpf : linkPaperFundersT P.id (pfs.map FunderSchema.name) ft db.paperFunders
      with ⟨ft2, pf2⟩
    rcases linkPFT_rows P.id (pfs.map FunderSchema.name) ft db.paperFunders with ⟨new1, hnew1⟩
    rw [hpf] at hnew1
    simp only [updateCore, hpr, har, hfr, hir, hpfu, hpf]
    intro e he
    exact main ft2 ⟨new1, hnew1⟩ e he

/-- Preservation of duplicate-freedom of all four edge lists by one upsert
call: every edge insertion is membership-guarded. -/
theorem updateCore_nodup (p : PaperSchema) (a : AuthorSchema) (db : DB) (h : edgesNodup db) :
    edgesNodup (updateCore p a db) := by
  rcases h with ⟨h1, h2, h3, h4⟩
  cases hpfu : p.funders with
  | none =>
    simp only [updateCore, hpfu, edgesNodup]
    exact ⟨linkPairs_nodup _ _ _ h1, linkPair_nodup _ _ _ h2, h3,
      linkTriples_nodup _ _ _ _ h4⟩
  | some pfs =>
    simp only [updateCore, hpfu, edgesNodup]
    exact ⟨linkPairs_nodup _ _ _ h1, linkPair_nodup _ _ _ h2,
      linkPFT_edges_nodup _ _ _ _ h3, linkTriples_nodup _ _ _ _ h4⟩

/-- A successful faulty match-or-create computes the pure match-or-create. -/
theorem resolveWithF_ok (fail : Nat → Bool) (m : String → Bool) (nm : String) (t : Table)
    (k : Nat) (f : EntityRow) (t1 : Table) (k1 : Nat)
    (h : resolveWithF fail m nm t k = .ok (f, t1, k1)) : resolveWith m nm t = (f, t1) := by
  unfold resolveWithF at h
  unfold resolveWith
  cases hf : findRow t m with
  | some g =>
    rw [hf] at h
    cases h
    rfl
  | none =>
    rw [hf] at h
    by_cases hk : fail (k + 1)
    · rw [if_pos hk] at h; cases h
    · rw [if_neg hk] at h
      cases h
      rfl

/-- A successful faulty chain computes the pure chain. -/
theorem resolveChainF_ok (fail : Nat → Bool) : ∀ (ns : List String) (t : Table) (k : Nat)
    (fs : List EntityRow) (t1 : Table) (k1 : Nat),
    resolveChainF fail ns t k = .ok (fs, t1, k1) → resolveChain ns t = (fs, t1) := by
  intro ns
  induction ns with
  | nil =>
    intro t k fs t1 k1 h
    cases h
    rfl
  | cons n rest ih =>
    intro t k fs t1 k1 h
    unfold resolveChainF at h
    cases hs : resolveWithF fail (fun s => ilikeMatch s n) n t k with
    | error er => rw [hs] at h; cases h
    | ok r1 =>
      rcases r1 with ⟨f, ta, ka⟩
      rw [hs] at h
      simp only at h
      cases hs2 : resolveChainF fail rest ta ka with
      | error er => rw [hs2] at h; cases h
      | ok r2 =>
        rcases r2 with ⟨fs2, tb, kb⟩
        rw [hs2] at h
        simp only at h
        cases h
        simp [resolveChain, resolveWithF_ok fail _ _ _ _ _ _ _ hs, ih ta ka fs2 t1 k1 hs2]

/-- A successful faulty pair insert computes the pure guarded insert. -/
theorem linkPairF_ok (fail : Nat → Bool) (x y : Nat) (e e1 : List (Nat × Nat)) (k k1 : Nat)
    (h : linkPairF fail x y e k = .ok (e1, k1)) : linkPair x y e = e1 := by
  unfold linkPairF at h
  unfold linkPair
  by_cases hm : (x, y) ∈ e
  · rw [if_pos hm] at h
    cases h
    rw [if_pos hm]
  · rw [if_neg hm] at h
    by_cases hk : fail (k + 1)
    · rw [if_pos hk] at h; cases h
    · rw [if_neg hk] at h
      cases h
      rw [if_neg hm]

/-- A successful faulty pair-insert loop computes the pure loop. -/
theorem linkPairsF_ok (fail : Nat → Bool) (x : Nat) : ∀ (ys : List Nat)
    (e : List (Nat × Nat)) (k : Nat) (e1 : List (Nat × Nat)) (k1 : Nat),
    linkPairsF fail x ys e k = .ok (e1, k1) → linkPairs x ys e = e1 := by
  intro ys
  induction ys with
  | nil => intro e k e1 k1 h; cases h; rfl
  | cons y rest ih =>
    intro e k e1 k1 h
    unfold linkPairsF at h
    cases hs : linkPairF fail x y e k with
    | error er => rw [hs] at h; cases h
    | ok r1 =>
      rcases r1 with ⟨ea, ka⟩
      rw [hs] at h
      simp only at h
      unfold linkPairs
      rw [linkPairF_ok fail x y e ea k ka hs]
      exact ih ea ka e1 k1 h

/-- A successful faulty triple-insert loop computes the pure loop. -/
theorem linkTriplesF_ok (fail : Nat → Bool) (a p : Nat) : ∀ (fs : List Nat)
    (e : List (Nat × Nat × Nat)) (k : Nat) (e1 : List (Nat × Nat × Nat)) (k1 : Nat),
    linkTriplesF fail a p fs e k = .ok (e1, k1) → linkTriples a p fs e = e1 := by
  intro fs
  induction fs with
  | nil => intro e k e1 k1 h; cases h; rfl
  | cons f rest ih =>
    intro e k e1 k1 h
    unfold linkTriplesF at h
    cases hs : linkTripleF fail a f p e k with
    | error er => rw [hs] at h; cases h
    | ok r1 =>
      rcases r1 with ⟨ea, ka⟩
      rw [hs] at h
      simp only at h
      unfold linkTriples
      have hstep : (if (a, f, p) ∈ e then e else e ++ [(a, f, p)]) = ea := by
        unfold linkTripleF at hs
        by_cases hm : (a, f, p) ∈ e
        · rw [if_pos hm] at hs
          cases hs
          rw [if_pos hm]
        · rw [if_neg hm] at hs
          by_cases hk : fail (k + 1)
          · rw [if_pos hk] at hs; cases hs
          · rw [if_neg hk] at hs
            cases hs
            rw [if_neg hm]
      rw [hstep]
      exact ih ea ka e1 k1 h

/-- A successful faulty paper-funder loop computes the pure loop. -/
theorem linkPaperFundersTF_ok (fail : Nat → Bool) (pid : Nat) : ∀ (ns : List String)
    (t : Table) (e : List (Nat × Nat)) (k : Nat) (t1 : Table) (e1 : List (Nat × Nat)) (k1 : Nat),
    linkPaperFundersTF fail pid ns t e k = .ok (t1, e1, k1) →
    linkPaperFundersT pid ns t e = (t1, e1) := by
  intro ns
  induction ns with
  | nil => intro t e k t1 e1 k1 h; cases h; rfl
  | cons n rest ih =>
    intro t e k t1 e1 k1 h
    unfold linkPaperFundersTF at h
    cases hs : resolveWithF fail (fun s => ilikeMatch s n) n t k with
    | error er => rw [hs] at h; cases h
    | ok r1 =>
      rcases r1 with ⟨f, ta, ka⟩
      rw [hs] at h
      simp only at h
      cases hs2 : linkPairF fail pid f.id e ka with
      | error er => rw [hs2] at h; cases h
      | ok r2 =>
        rcases r2 with ⟨ea, kb⟩
        rw [hs2] at h
        simp only at h
        simp only [linkPaperFundersT, resolveWithF_ok fail _ _ _ _ _ _ _ hs,
          linkPairF_ok fail pid f.id e ea ka kb hs2]
        exact ih ta ea kb t1 e1 k1 h

/-- A faulty run that reaches the commit has built exactly the state the
fault-free upsert builds. -/
theorem updateDatabaseFaulty_ok (fail : Nat → Bool) (p : PaperSchema) (a : AuthorSchema)
    (db : DB) (out : DB × Nat)
    (h : updateDatabaseFaulty fail p a db = .ok out) : out.1 = update_database p a db := by
  rw [update_database_eq_core]
  unfold updateDatabaseFaulty at h
  cases h1 : resolveWithF fail (fun s => s == p.doi) p.doi db.papers 0 with
  | error er => rw [h1] at h; cases h
  | ok r1 =>
    rcases r1 with ⟨P, pt, k1⟩
    rw [h1] at h; simp only at h
    cases h2 : resolveWithF fail (fun s => ilikeMatch s a.name) a.name db.authors k1 with
    | error er => rw [h2] at h; cases h
    | ok r2 =>
      rcases r2 with ⟨A, at2, k2⟩
      rw [h2] at h; simp only at h
      cases h3 : resolveChainF fail (a.funders.map FunderSchema.name) db.funders k2 with
      | error er => rw [h3] at h; cases h
      | ok r3 =>
        rcases r3 with ⟨afs, ft, k3⟩
        rw [h3] at h; simp only at h
        cases h4 : resolveChainF fail (a.institution.map InstitutionSchema.name)
            db.institutions k3 with
        | error er => rw [h4] at h; cases h
        | ok r4 =>
          rcases r4 with ⟨ais, it, k4⟩
          rw [h4] at h; simp only at h
          cases h5 : linkPairsF fail A.id (ais.map EntityRow.id) db.authorInstitutions k4 with
          | error er => rw [h5] at h; cases h
          | ok r5 =>
            rcases r5 with ⟨ai, k5⟩
            rw [h5] at h; simp only at h
            cases h6 : linkTriplesF fail A.id P.id (afs.map EntityRow.id) db.authorFunders k5 with
            | error er => rw [h6] at h; cases h
            | ok r6 =>
              rcases r6 with ⟨af, k6⟩
              rw [h6] at h; simp only at h
              cases h7 : linkPairF fail P.id A.id db.paperAuthors k6 with
              | error er => rw [h7] at h; cases h
              | ok r7 =>
                rcases r7 with ⟨pa, k7⟩
                rw [h7] at h; simp only at h
                cases hpfu : p.funders with
                | none =>
                  rw [hpfu] at h
                  simp only at h
                  cases h
                  simp only [updateCore, hpfu,
                    resolveWithF_ok fail _ _ _ _ _ _ _ h1,
                    resolveWithF_ok fail _ _ _ _ _ _ _ h2,
                    resolveChainF_ok fail _ _ _ _ _ _ h3,
                    resolveChainF_ok fail _ _ _ _ _ _ h4,
                    linkPairsF_ok fail _ _ _ _ _ _ h5,
                    linkTriplesF_ok fail _ _ _ _ _ _ _ h6,
                    linkPairF_ok fail _ _ _ _ _ _ h7]
                | some pfs =>
                  rw [hpfu] at h
                  simp only at h
                  cases h8 : linkPaperFundersTF fail P.id (pfs.map FunderSchema.name) ft
                      db.paperFunders k7 with
                  | error er => rw [h8] at h; cases h
                  | ok r8 =>
                    rcases r8 with ⟨ft2, pf2, k8⟩
                    rw [h8] at h; simp only at h
                    cases h
                    simp only [updateCore, hpfu,
                      resolveWithF_ok fail _ _ _ _ _ _ _ h1,
                      resolveWithF_ok fail _ _ _ _ _ _ _ h2,
                      resolveChainF_ok fail _ _ _ _ _ _ h3,
                      resolveChainF_ok fail _ _ _ _ _ _ h4,
                      linkPairsF_ok fail _ _ _ _ _ _ h5,
                      linkTriplesF_ok fail _ _ _ _ _ _ _ h6,
                      linkPairF_ok fail _ _ _ _ _ _ h7,
                      linkPaperFundersTF_ok fail _ _ _ _ _ _ _ _ h8]

/-- C1: Idempotence of the upsert.  Running update_database twice in
succession with identical paper and author records from the same initial
store produces exactly the final state of running it once: the same Paper,
Author, Funder and Institution rows and the same author-institution,
paper-author, paper-funder and AuthorFunders edges, with nothing duplicated
by the second run. -/
theorem C1_upsert_idempotent (p : PaperSchema) (a : AuthorSchema) (db : DB) :
    update_database p a (update_database p a db) = update_database p a db := by
  simp only [update_database_eq_core]
  exact updateCore_idem p a db

/-- C2 counterexample: the resolver is SQL LIKE matching with the query as
the pattern, so the query name M%T returns the stored institution MIT even
though the two names are not equal up to letter case.  This refutes the
claim as stated for every query name: a wildcard query matches rows whose
stored name differs from it. -/
theorem C2_counterexample :
    fuzzy_match_institution mitDB "M%T" defaultThreshold = some ⟨1, "MIT"⟩ ∧
      lowerName "MIT" ≠ lowerName "M%T" := by
  constructor
  · decide
  · decide

/-- C2 amended: for every query name free of SQL LIKE wildcard characters,
entity resolution for each of the three kinds is a case-insensitive exact
(not substring) name match: any returned row is an existing row whose
stored name equals the query up to letter case, and a row is returned
exactly when such a row exists; in particular resolving mit after creating
MIT returns that entity. -/
theorem C2_amended_resolution (db : DB) (name : String) (h : noWildcard name = true) :
    (∀ r, fuzzy_match_author db name defaultThreshold = some r →
        r ∈ db.authors.rows ∧ lowerName r.name = lowerName name) ∧
    ((fuzzy_match_author db name defaultThreshold).isSome ↔
        ∃ r ∈ db.authors.rows, lowerName r.name = lowerName name) ∧
    (∀ r, fuzzy_match_funder db name defaultThreshold = some r →
        r ∈ db.funders.rows ∧ lowerName r.name = lowerName name) ∧
    ((fuzzy_match_funder db name defaultThreshold).isSome ↔
        ∃ r ∈ db.funders.rows, lowerName r.name = lowerName name) ∧
    (∀ r, fuzzy_match_institution db name defaultThreshold = some r →
        r ∈ db.institutions.rows ∧ lowerName r.name = lowerName name) ∧
    ((fuzzy_match_institution db name defaultThreshold).isSome ↔
        ∃ r ∈ db.institutions.rows, lowerName r.name = lowerName name) := by
  have gen : ∀ t : Table,
      (∀ r, findRow t (fun s => ilikeMatch s name) = some r →
          r ∈ t.rows ∧ lowerName r.name = lowerName name) ∧
      ((findRow t (fun s => ilikeMatch s name)).isSome ↔
          ∃ r ∈ t.rows, lowerName r.name = lowerName name) := by
    intro t
    constructor
    · intro r hr
      refine ⟨List.mem_of_find?_eq_some hr, ?_⟩
      have hp := List.find?_some hr
      exact (ilikeMatch_eq_lower r.name name h).mp (by simpa using hp)
    · unfold findRow
      rw [List.find?_isSome]
      constructor
      · rintro ⟨x, hx, hpx⟩
        exact ⟨x, hx, (ilikeMatch_eq_lower x.name name h).mp (by simpa using hpx)⟩
      · rintro ⟨x, hx, hlx⟩
        exact ⟨x, hx, by simpa using (ilikeMatch_eq_lower x.name name h).mpr hlx⟩
  exact ⟨(gen db.authors).1, (gen db.authors).2, (gen db.funders).1, (gen db.funders).2,
    (gen db.institutions).1, (gen db.institutions).2⟩

/-- C2 witness: on the store holding the single institution MIT, resolving
the wildcard-free query mit succeeds. -/
theorem C2_amended_witness :
    (fuzzy_match_institution mitDB "mit" defaultThreshold).isSome :=
  ((C2_amended_resolution mitDB "mit" (by decide)).2.2.2.2.2).mpr
    ⟨⟨1, "MIT"⟩, by decide, by decide⟩

/-- C3: Referential integrity of the three-way association.  If every
AuthorFunders row of the store references existing Author, Funder and Paper
rows, the same holds after any upsert call: rows created by the call (the
resolved author, funder and paper identifiers are assigned before any
triple is built, and are never null) reference rows present at commit time.
-/
theorem C3_authorfunders_fk (p : PaperSchema) (a : AuthorSchema) (db : DB) (h : fkAF db) :
    fkAF (update_database p a db) := by
  rw [update_database_eq_core]
  exact updateCore_fkAF p a db h

/-- C3 witness: referential integrity holds for the state produced by the
end-to-end scenario from the empty store. -/
theorem C3_witness : fkAF (update_database scenarioPaper scenarioAuthor emptyDB) :=
  C3_authorfunders_fk scenarioPaper scenarioAuthor emptyDB
    (fun e he => absurd he (List.not_mem_nil e))

/-- C4: No duplicate edges.  Starting from any store with duplicate-free
edge lists, any sequence of upsert calls — in particular a single call, or
repeated identical calls, and regardless of repeated institution or funder
names inside one record — leaves at most one edge per (author, institution),
(author, paper) and (paper, funder) pair and at most one AuthorFunders row
per (author, funder, paper) triple. -/
theorem C4_no_duplicate_edges : ∀ (calls : List (PaperSchema × AuthorSchema)) (db : DB),
    edgesNodup db → edgesNodup (applyCalls calls db) := by
  intro calls
  induction calls with
  | nil => intro db h; exact h
  | cons c rest ih =>
    intro db h
    have h1 : edgesNodup (update_database c.1 c.2 db) := by
      rw [update_database_eq_core]
      exact updateCore_nodup _ _ _ h
    simpa [applyCalls, List.foldl_cons] using ih (update_database c.1 c.2 db) h1

/-- C4 witness: two identical calls whose author record lists MIT and NSF
twice each still leave duplicate-free edge lists. -/
theorem C4_witness :
    edgesNodup (applyCalls [(scenarioPaper, dupAuthor), (scenarioPaper, dupAuthor)] emptyDB) :=
  C4_no_duplicate_edges [(scenarioPaper, dupAuthor), (scenarioPaper, dupAuthor)] emptyDB
    ⟨List.nodup_nil, List.nodup_nil, List.nodup_nil, List.nodup_nil⟩

/-- C5: All-or-nothing upsert.  The call performs all writes in one session
committed once at the end: if any insert fails (fault oracle) or the commit
itself fails, the observable store equals the state before the call; and
every observable outcome is either the unchanged store or exactly the state
of the successful upsert — no partial state exists. -/
theorem C5_all_or_nothing (fail : Nat → Bool) (commitFails : Bool) (p : PaperSchema)
    (a : AuthorSchema) (db : DB) :
    (updateFailed fail p a db = true → run_update_database fail commitFails p a db = db) ∧
    (run_update_database fail commitFails p a db = db ∨
      run_update_database fail commitFails p a db = update_database p a db) := by
  unfold updateFailed run_update_database
  cases hr : updateDatabaseFaulty fail p a db with
  | error er => exact ⟨fun _ => rfl, Or.inl rfl⟩
  | ok out =>
    refine ⟨fun hfalse => Bool.noConfusion hfalse, ?_⟩
    cases commitFails with
    | true => exact Or.inl rfl
    | false => exact Or.inr (by simpa using updateDatabaseFaulty_ok fail p a db out hr)

/-- C5 witness: a store error on the first insert of the scenario call
leaves the empty store unchanged. -/
theorem C5_witness :
    run_update_database failFirst false scenarioPaper scenarioAuthor emptyDB = emptyDB :=
  (C5_all_or_nothing failFirst false scenarioPaper scenarioAuthor emptyDB).1 (by decide)

/-- C6: End-to-end scenario.  From the empty store, one upsert of the paper
10.1/x (paper-level funder DARPA) with author Alice (institution MIT,
funder NSF) leaves exactly one Paper row, one Author row Alice, one
Institution row MIT, two Funder rows NSF and DARPA, the edges Alice-MIT,
Alice-Paper and Paper-DARPA, and exactly one AuthorFunders row
(Alice, NSF, Paper). -/
theorem C6_end_to_end :
    (update_database scenarioPaper scenarioAuthor emptyDB).papers.rows = [⟨1, "10.1/x"⟩] ∧
    (update_database scenarioPaper scenarioAuthor emptyDB).authors.rows = [⟨1, "Alice"⟩] ∧
    (update_database scenarioPaper scenarioAuthor emptyDB).institutions.rows = [⟨1, "MIT"⟩] ∧
    (update_database scenarioPaper scenarioAuthor emptyDB).funders.rows =
      [⟨1, "NSF"⟩, ⟨2, "DARPA"⟩] ∧
    (update_database scenarioPaper scenarioAuthor emptyDB).authorInstitutions = [(1, 1)] ∧
    (update_database scenarioPaper scenarioAuthor emptyDB).paperAuthors = [(1, 1)] ∧
    (update_database scenarioPaper scenarioAuthor emptyDB).paperFunders = [(1, 2)] ∧
    (update_database scenarioPaper scenarioAuthor emptyDB).authorFunders = [(1, 1, 1)] := by
  decide

/-- C7: Ingestion failure handling.  For every DOI, the fetch returns none
on a not-found response (HTTP 404), on any other HTTP or transport error,
and on an invalid JSON body — it is a total function and never raises — and
a not-found lookup performs zero store mutations. -/
theorem C7_fetch_error_handling (doi : String) (db : DB) (resp : ApiResponse) :
    ((∃ status, resp = ApiResponse.httpError status) ∨ resp = ApiResponse.transportError ∨
        resp = ApiResponse.invalidJson →
      fetch_paper_data_from_openalex doi resp = none) ∧
    fetch_paper_data_from_openalex doi (ApiResponse.httpError 404) = none ∧
    ingest_doi doi (ApiResponse.httpError 404) db = db := by
  refine ⟨?_, rfl, rfl⟩
  rintro (⟨s, rfl⟩ | rfl | rfl) <;> rfl

/-- C7 witness: a transport error on a concrete DOI yields an absent
result. -/
theorem C7_witness :
    fetch_paper_data_from_openalex "10.9999/missing" ApiResponse.transportError = none :=
  (C7_fetch_error_handling "10.9999/missing" emptyDB ApiResponse.transportError).1
    (Or.inr (Or.inl rfl))

/-- C8: The threshold parameter has no effect.  For every store, every
query name and any two threshold values, each of the three resolvers
returns the same result: the outcome depends only on the name and the
store. -/
theorem C8_threshold_no_effect (db : DB) (name : String) (t1 t2 : Rat) :
    fuzzy_match_author db name t1 = fuzzy_match_author db name t2 ∧
    fuzzy_match_funder db name t1 = fuzzy_match_funder db name t2 ∧
    fuzzy_match_institution db name t1 = fuzzy_match_institution db name t2 :=
  ⟨rfl, rfl, rfl⟩

/-- C9: A fetched paper whose authors list is absent or empty is skipped by
add_paper_to_db entirely: no Paper row and no paper-level funder edge is
created, the store is returned unchanged. -/
theorem C9_no_authors_no_mutation (paper : PaperSchema) (db : DB)
    (h : paper.authors = none ∨ paper.authors = some []) :
    add_paper_to_db paper db = db := by
  unfold add_paper_to_db
  rcases h with h | h <;> rw [h]

/-- C9 witness: a paper with funder DARPA but no authors field leaves the
empty store untouched. -/
theorem C9_witness :
    add_paper_to_db ⟨"10.1/x", none, some [⟨"DARPA"⟩]⟩ emptyDB = emptyDB :=
  C9_no_authors_no_mutation ⟨"10.1/x", none, some [⟨"DARPA"⟩]⟩ emptyDB (Or.inl rfl)

/-- C10: No emptiness validation at the upsert boundary.  The schema
accepts an author record whose name is the empty string, and
update_database, run on it from the empty store, proceeds through all steps
and commits an Author row whose name is the empty string instead of
rejecting the record. -/
theorem C10_empty_name_accepted :
    (update_database ⟨"10.1/x", none, none⟩ ⟨"", [], []⟩ emptyDB).authors.rows = [⟨1, ""⟩] ∧
    (update_database ⟨"10.1/x", none, none⟩ ⟨"", [], []⟩ emptyDB).papers.rows =
      [⟨1, "10.1/x"⟩] := by
  decide
